import Mathlib

/-!
Verification development for the TileIR repository: a shallow embedding of
the tile-language surface utilities (`tilelang/language/kernel.py`,
`tilelang/utils/profiler.py`, the `flashattn` example in
`examples/mha_pipeline.py`) together with a model of the software-pipeline
scheduler (stage graph, schedule planning, synchronization insertion and
ramp/drain generation) described by the specification of the repository; the
scheduler itself is not part of the visible Python sources, so its
definitions are modelled from the spec, as marked in their doc comments.
-/

namespace TileIR

/-! ## Kernel launch frame (`tilelang/language/kernel.py`) -/

/-- A TIR frame as seen by `KernelLaunchFrame.__enter__`: all the embedding
needs is the iteration variable of the frame (`frame.iter_var.var`), modelled as a
natural-number tag. -/
structure KFrame where
  var : Nat
deriving DecidableEq, Repr, Inhabited

/-- The method `KernelLaunchFrame.__enter__`: with the frame stack
`BlockIdx.x/y/z, ThreadIdx.x/y/z, Root Block`, returns `frames[0].iter_var.var`
when there are exactly 5 frames, and otherwise the list
`[frame.iter_var.var for frame in frames[0:-4]]` (the Python `[0:-4]` slice is
`take (length - 4)`). -/
def kernelLaunchEnter (frames : List KFrame) : Sum Nat (List Nat) :=
  if frames.length = 5 then
    Sum.inl frames.headI.var
  else
    Sum.inr ((frames.take (frames.length - 4)).map KFrame.var)

/-- The `threads` argument of `Kernel`: a Python `int`, `list`, `tuple`, or
anything else. -/
inductive ThreadsArg where
  | int (n : Int)
  | list (l : List Int)
  | tuple (l : List Int)
  | other
deriving DecidableEq, Repr

/-- The `threads` normalization at the top of `Kernel`:
`int t ↦ [t, 1, 1]`; `list l ↦ l ++ [1] * (3 - len l)`;
`tuple l ↦ list l ++ [1] * (3 - len l)`; anything else raises
`ValueError("threads must be an integer or a list of integers")`. -/
def normalizeThreads : ThreadsArg → Except String (List Int)
  | .int n => .ok [n, 1, 1]
  | .list l => .ok (l ++ List.replicate (3 - l.length) 1)
  | .tuple l => .ok (l ++ List.replicate (3 - l.length) 1)
  | .other => .error "ValueError: threads must be an integer or a list of integers"

/-- The kernel launch frame constructed by `_ffi_api.KernelLaunch` at the end
of `Kernel`, keyed by the grid extents and the normalized block dimensions. -/
structure LaunchFrame where
  blocks : List Int
  threads : List Int
deriving DecidableEq, Repr

/-- The function `Kernel(*blocks, threads=t)`: normalize `threads` and build the launch
frame; on a bad `threads` argument the `ValueError` is raised before any
frame is constructed. -/
def Kernel (blocks : List Int) (threads : ThreadsArg) : Except String LaunchFrame :=
  match normalizeThreads threads with
  | .error e => .error e
  | .ok t => .ok ⟨blocks, t⟩

/-! ## `ConvertTorch._convert_torch_func` (`tilelang/utils/profiler.py`) -/

/-- A `TensorType` entry of `self.params`: only its dtype and shape are
consulted (`str(self.params[i].dtype)`, `list(map(int, self.params[i].shape))`). -/
structure TParam where
  dtype : String
  shape : List Nat
deriving DecidableEq, Repr

/-- A tensor position in the argument list assembled by the converted
function: either a fresh uninitialized output (`torch.empty(...)`) or one of
the supplied input tensors. -/
inductive TorchVal (α : Type) where
  | empty (dtype : String) (shape : List Nat)
  | given (x : α)
deriving DecidableEq, Repr

/-- The argument-assembly loop of the converted function: walk the parameter
positions in order; a position in `result_idx` gets a fresh
`torch.empty`, any other position consumes the next supplied input
(`ins[ins_idx]`; exhausting `ins` is an `IndexError` in Python, modelled as
`none`).  Returns the assembled argument list and the unconsumed inputs. -/
def buildArgs (ridx : List Nat) :
    List (Nat × TParam) → List α → Option (List (TorchVal α) × List α)
  | [], ins => some ([], ins)
  | (i, p) :: rest, ins =>
    if i ∈ ridx then
      (buildArgs ridx rest ins).map fun ar => (.empty p.dtype p.shape :: ar.1, ar.2)
    else
      match ins with
      | [] => none
      | a :: ins' =>
        (buildArgs ridx rest ins').map fun ar => (.given a :: ar.1, ar.2)

/-- The observable outcome of one call of the converted function: the
argument list of the single kernel invocation (`torch_func(*args)`), and the
returned output — a single tensor when `len(result_idx) == 1`, else the list
of output tensors in `result_idx` order. -/
structure CallResult (α : Type) where
  kernelArgs : List (TorchVal α)
  output : Sum (TorchVal α) (List (TorchVal α))
deriving DecidableEq, Repr

/-- The body of the callable built by `ConvertTorch._convert_torch_func`:
check `len(ins) + len(result_idx) == len(params)` (else `ValueError`, raised
before the kernel runs), assemble `args`, invoke the kernel once, and return
`args[result_idx[0]]` when `len(result_idx) == 1` else
`[args[i] for i in result_idx]`.  Out-of-range indexing is a Python
`IndexError`. -/
def convertTorchFunc (params : List TParam) (ridx : List Nat) (ins : List α) :
    Except String (CallResult α) :=
  if ins.length + ridx.length ≠ params.length then
    .error "ValueError: parameter count mismatch"
  else
    match buildArgs ridx params.enum ins with
    | none => .error "IndexError"
    | some (args, _) =>
      if ridx.length = 1 then
        match args.get? (ridx.headI) with
        | some t => .ok ⟨args, .inl t⟩
        | none => .error "IndexError"
      else
        match ridx.mapM (fun i => args.get? i) with
        | some outs => .ok ⟨args, .inr outs⟩
        | none => .error "IndexError"

/-! ## The `flashattn` loop trip count (`examples/mha_pipeline.py`) -/

/-- The helper `T.ceildiv`. -/
def ceildiv (a b : Nat) : Nat := (a + b - 1) / b

/-- The `loop_range` expression in `main` of `flashattn`:
`T.min(T.ceildiv(seq_len, block_N), T.ceildiv((bx + 1) * block_M, block_N))
if is_casual else T.ceildiv(seq_len, block_N)`. -/
def loopRange (isCasual : Bool) (seqLen blockM blockN bx : Nat) : Nat :=
  if isCasual then
    min (ceildiv seqLen blockN) (ceildiv ((bx + 1) * blockM) blockN)
  else
    ceildiv seqLen blockN

/-! ## Pipeline scheduler model

Modelled from the spec: the `T.Pipelined` scheduler (stage graph builder,
schedule planner, synchronization inserter, ramp/drain generator of spec
sections 4.1 to 4.4) is not among the visible Python sources of the
repository — `examples/mha_pipeline.py` only invokes it — so the
definitions below follow the wording of the spec. -/

/-- Execution lane of a stage (spec section 3): synchronous compute,
asynchronous copy engine, or asynchronous matrix unit. -/
inductive Lane where
  | syncCompute
  | asyncCopy
  | asyncMMA
deriving DecidableEq, Repr

/-- Modelled from the spec (section 3): a buffer region — a logical buffer
name with an index range.  Two regions conflict when they are on the same
buffer, their ranges overlap and at least one access is a write. -/
structure Region where
  buf : Nat
  lo : Nat
  hi : Nat
deriving DecidableEq, Repr

/-- Range overlap on the same buffer. -/
def Region.overlaps (r s : Region) : Bool :=
  r.buf == s.buf && decide (r.lo < s.hi) && decide (s.lo < r.hi)

/-- Whether a buffer is iteration-local (persists across iterations by
design, e.g. running softmax statistics) or rotating (cyclically reused
shared tile storage), spec section 3. -/
inductive BufKind where
  | rotating
  | persistent
deriving DecidableEq, Repr

/-- Modelled from the spec (sections 3 and 5): the compile-time cyclic slot
assignment for buffers.  A rotating buffer uses slot `iteration mod depth`;
an iteration-local (persistent) buffer is exempt from rotation and stays on
a single slot. -/
def slotOfBufIter (kind : BufKind) (iter depth : Nat) : Nat :=
  match kind with
  | .persistent => 0
  | .rotating => iter % depth

/-- Modelled from the spec (section 3): a stage — a named opaque unit of
work with declared buffer-region reads and writes, an execution lane, and a
pipeline depth offset.  `lag` is the negated offset: a stage with offset
`-1` (executes one iteration ahead of the loop index that owns it) has
`lag = 1`; logical instance `j` of a stage with lag `ℓ` is emitted in
physical slot `j - ℓ` of the pipelined loop. -/
structure PStage where
  sid : Nat
  lag : Nat
  lane : Lane
  reads : List Region
  writes : List Region
deriving DecidableEq, Repr

/-- Modelled from the spec (sections 3 and 4.1): the buffers on which two
stages conflict when stage `A` is taken at logical iteration `i` and stage
`B` at iteration `i + dlog`.  `bufSlots b` is the number of physical slots
of buffer `b` (1 for a persistent or single-buffered shared buffer, `depth`
for a multi-buffered rotating buffer); the two iterations touch the same
physical slot exactly when `dlog` is a multiple of the slot count. -/
def conflictBufs (bufSlots : Nat → Nat) (dlog : Nat) (A B : PStage) : List Nat :=
  (A.writes.flatMap fun w =>
    (B.reads ++ B.writes).filterMap fun r =>
      if w.overlaps r && (dlog % bufSlots w.buf == 0) then some w.buf else none)
  ++ (A.reads.flatMap fun r =>
    B.writes.filterMap fun w =>
      if r.overlaps w && (dlog % bufSlots r.buf == 0) then some r.buf else none)

/-- Modelled from the spec (section 4.1): a dependency edge — the read of
`cons` at logical iteration `i + dlog` must observe the write of `prod` at
iteration `i` (or, for an anti dependency, `cons` must not overwrite before
`prod` has read). -/
structure DepEdge where
  prod : PStage
  cons : PStage
  dlog : Nat
  bufs : List Nat
deriving DecidableEq, Repr

/-- All ordered pairs `(A, B)` with `A` strictly before `B` in the list. -/
def orderedPairs : List α → List (α × α)
  | [] => []
  | x :: xs => xs.map (fun y => (x, y)) ++ orderedPairs xs

/-- Modelled from the spec (section 4.1): intra-iteration edges — for every
pair of stages with `A` before `B` in declaration order whose declared
regions conflict within one iteration. -/
def intraEdges (bufSlots : Nat → Nat) (decl : List PStage) : List DepEdge :=
  (orderedPairs decl).filterMap fun ab =>
    let bs := conflictBufs bufSlots 0 ab.1 ab.2
    if bs.isEmpty then none else some ⟨ab.1, ab.2, 0, bs⟩

/-- Modelled from the spec (section 4.1): cross-iteration edges — for every
pair of stages (`A` at iteration `i`, `B` at iteration `i + Δ`) for each
`Δ` from 1 to `depth - 1` whose regions conflict at that distance. -/
def crossEdges (bufSlots : Nat → Nat) (decl : List PStage) (depth : Nat) : List DepEdge :=
  (List.range (depth - 1)).flatMap fun d =>
    decl.flatMap fun A =>
      decl.filterMap fun B =>
        let bs := conflictBufs bufSlots (d + 1) A B
        if bs.isEmpty then none else some ⟨A, B, d + 1, bs⟩

/-- Modelled from the spec (section 4.1): the dependency graph of one
compiled kernel, intra-iteration edges first. -/
def buildEdges (bufSlots : Nat → Nat) (decl : List PStage) (depth : Nat) : List DepEdge :=
  intraEdges bufSlots decl ++ crossEdges bufSlots decl depth

/-- An edge crosses execution lanes exactly when producer and consumer have
different lane tags — this is exactly when a hardware barrier is required
(spec section 4.3). -/
def DepEdge.laneCross (e : DepEdge) : Bool :=
  e.prod.lane != e.cons.lane

/-- Modelled from the spec (section 4.3): a synchronization class — a
producer/consumer/Δ group of lane-crossing edges sharing one barrier
identifier `bid`.  `dslot` is the number of emitted loop iterations the
barrier spans (the offset difference of the claims): `dslot ≥ 1` makes it
an inter-iteration barrier class. -/
structure SyncClass where
  bid : Nat
  prodSid : Nat
  consSid : Nat
  dlog : Nat
  dslot : Int
  bufs : List Nat
deriving DecidableEq, Repr

/-- An inter-iteration barrier class: its arrive and wait are emitted in
different physical loop iterations. -/
def SyncClass.inter (c : SyncClass) : Bool :=
  decide (1 ≤ c.dslot)

/-- Modelled from the spec (section 4.3): one barrier identifier per
synchronization class, assigned in edge order over the lane-crossing edges
of the dependency graph. -/
def mkClasses (edges : List DepEdge) : List SyncClass :=
  (edges.filter DepEdge.laneCross).enum.map fun ie =>
    { bid := ie.1
      prodSid := ie.2.prod.sid
      consSid := ie.2.cons.sid
      dlog := ie.2.dlog
      dslot := (ie.2.dlog : Int) + (ie.2.prod.lag : Int) - (ie.2.cons.lag : Int)
      bufs := ie.2.bufs }

/-- One instruction slot of the emitted stream: a stage executing its
logical iteration, or a barrier arrive/wait.  Each barrier instruction
carries its identifier, its parity value and the round (edge instance)
index it belongs to; with each identifier completing one round trip per
emitted iteration (period 1), the parity of round `r` is
`(r / period) % 2 = r % 2`, flipped once per round trip (spec section
4.3). -/
inductive Instr where
  | exec (sid : Nat) (iter : Nat)
  | arrive (bid : Nat) (parity : Nat) (round : Nat)
  | wait (bid : Nat) (parity : Nat) (round : Nat)
deriving DecidableEq, Repr

/-- Whether an instruction is a stage execution. -/
def Instr.isExec : Instr → Bool
  | .exec _ _ => true
  | _ => false

/-- Modelled from the spec (section 4.3): the annotated emission of logical
instance `j` of stage `s` — waits of every class consuming `s` immediately
before it (round `j - dlog`, present once the producing instance exists),
the execution itself, and arrives of every class produced by `s`
immediately after it (round `j`, present while the consuming instance
`j + dlog` is still in range). -/
def emitStage (classes : List SyncClass) (trip : Nat) (s : PStage) (j : Nat) : List Instr :=
  (classes.filterMap fun c =>
    if c.consSid == s.sid && decide (c.dlog ≤ j) then
      some (.wait c.bid ((j - c.dlog) % 2) (j - c.dlog))
    else none)
  ++ [.exec s.sid j]
  ++ (classes.filterMap fun c =>
    if c.prodSid == s.sid && decide (j + c.dlog < trip) then
      some (.arrive c.bid (j % 2) j)
    else none)

/-- Modelled from the spec (section 4.4): physical loop iteration `p` of
the generated loop (shifted so that `p = 0` is the first prologue
iteration; `span = depth - 1`).  A stage with lag `ℓ` contributes its
logical instance `j = p + ℓ - span` when `0 ≤ j < trip`. -/
def slotBody (stages : List PStage) (classes : List SyncClass)
    (trip depth : Nat) (p : Nat) : List Instr :=
  stages.flatMap fun s =>
    if depth - 1 ≤ p + s.lag ∧ p + s.lag < trip + (depth - 1) then
      emitStage classes trip s (p + s.lag - (depth - 1))
    else
      []

/-- Modelled from the spec (section 4.4): the full emitted instruction
stream of a pipelined loop — `trip + (depth - 1)` physical iterations
(`depth - 1` ramp iterations, then the steady window, then the drain),
each stage executing exactly its `trip` logical instances. -/
def emitAll (stages : List PStage) (classes : List SyncClass)
    (trip depth : Nat) : List Instr :=
  (List.range (trip + (depth - 1))).flatMap (slotBody stages classes trip depth)

/-- Modelled from the spec (section 4.4): the `depth - 1` prologue
iterations (physical slots before the steady window). -/
def prologuePhase (stages : List PStage) (classes : List SyncClass)
    (trip depth : Nat) : List (List Instr) :=
  (List.range (depth - 1)).map (slotBody stages classes trip depth)

/-- Modelled from the spec (section 4.4): the steady-state iterations —
the physical slots in which every stage has a valid logical instance;
there are `trip - (depth - 1)` of them when `trip ≥ depth`. -/
def steadyPhase (stages : List PStage) (classes : List SyncClass)
    (trip depth : Nat) : List (List Instr) :=
  (List.range' (depth - 1) (trip - (depth - 1))).map (slotBody stages classes trip depth)

/-- Modelled from the spec (section 4.4): the epilogue iterations draining
the stages whose logical instances remain after the last steady
iteration. -/
def epiloguePhase (stages : List PStage) (classes : List SyncClass)
    (trip depth : Nat) : List (List Instr) :=
  (List.range' trip (depth - 1)).map (slotBody stages classes trip depth)

/-- Modelled from the spec (section 4.2 hints plus 4.4): one schedule
construction input — the declared stage list, the planner output order, the
buffer slot counts, the pipeline depth and the trip count.  Everything the
construction consumes is a field of this structure. -/
structure PipeDesc where
  declOrder : List PStage
  planned : List PStage
  bufSlots : Nat → Nat
  depth : Nat
  trip : Nat

/-- The complete schedule construction: build the dependency graph from the
declarations, derive the synchronization classes, and emit the annotated
prologue/steady/epilogue stream. -/
def construct (d : PipeDesc) : List Instr :=
  emitAll d.planned (mkClasses (buildEdges d.bufSlots d.declOrder d.depth)) d.trip d.depth

/-! ## Scans over the emitted stream

The correctness properties of the emitted stream (barrier pairing,
dependency preservation, per-stage iteration coverage) are phrased as
left-to-right scans that either thread a state through the stream or fail;
a property holds when the scan completes. -/

/-- Fold a partial step function over an instruction stream, failing as
soon as one step fails. -/
def foldOpt (f : σ → Instr → Option σ) : σ → List Instr → Option σ
  | s, [] => some s
  | s, i :: l =>
    match f s i with
    | none => none
    | some t => foldOpt f t l

/-- Pointwise update of a two-argument map. -/
def pendUpd (st : Nat → Nat → List Nat) (b q : Nat) (v : List Nat)
    (b' q' : Nat) : List Nat :=
  if b' = b ∧ q' = q then v else st b' q'

/-- The barrier-pairing scan (spec section 8, barrier pairing
completeness).  The state maps each (identifier, parity) pair to the rounds
of the arrives on that identifier-parity seen since the last wait on the
same identifier-parity.  A wait on `(b, q)` with round `r` demands that
exactly one such arrive is pending and that it belongs to round `r` — i.e.
walking backward from the wait, without crossing another wait on the same
identifier-parity, one finds exactly one arrive of that parity, and it is
the arrive of the matching round, not of the previous round. -/
def pairStep (st : Nat → Nat → List Nat) : Instr → Option (Nat → Nat → List Nat)
  | .exec _ _ => some st
  | .arrive b q r => some (pendUpd st b q (st b q ++ [r]))
  | .wait b q r => if st b q = [r] then some (pendUpd st b q []) else none

/-- Barrier pairing completeness of a stream: the pairing scan completes
from the empty pending state. -/
def pairingOk (l : List Instr) : Bool :=
  (foldOpt pairStep (fun _ _ => []) l).isSome

/-- Pointwise update of a seen-set map. -/
def seenUpd (st : Nat → Nat → Bool) (s j : Nat) (s' j' : Nat) : Bool :=
  if s' = s ∧ j' = j then true else st s' j'

/-- The dependency-preservation scan (spec section 8, dependency
preservation).  `edges` lists `(producer sid, consumer sid, dlog)`
triples; executing consumer instance `j ≥ dlog` demands that producer
instance `j - dlog` has already executed earlier in the stream. -/
def depStep (edges : List (Nat × Nat × Nat)) (st : Nat → Nat → Bool) :
    Instr → Option (Nat → Nat → Bool)
  | .exec s j =>
    if edges.all fun e =>
        !(e.2.1 == s) || decide (j < e.2.2) || st e.1 (j - e.2.2) then
      some (seenUpd st s j)
    else
      none
  | .arrive _ _ _ => some st
  | .wait _ _ _ => some st

/-- Dependency preservation of a stream: the dependency scan completes from
the empty seen set. -/
def depOrderOk (edges : List (Nat × Nat × Nat)) (l : List Instr) : Bool :=
  (foldOpt (depStep edges) (fun _ _ => false) l).isSome

/-- The `(prod sid, cons sid, dlog)` triples of a dependency graph. -/
def depTriples (edges : List DepEdge) : List (Nat × Nat × Nat) :=
  edges.map fun e => (e.prod.sid, e.cons.sid, e.dlog)

/-- The logical iteration indices at which stage `sid` executes, in stream
order. -/
def execsOf (sid : Nat) (l : List Instr) : List Nat :=
  l.filterMap fun i =>
    match i with
    | .exec s j => if s = sid then some j else none
    | _ => none

/-! ## The four-stage attention scenario (spec section 8)

The scenario mirrored from the attention kernel: LoadK (async copy, offset
-1), Compute0 (compute, offset 0, reading what LoadK wrote), Compute1
(compute, offset 0, reading what Compute0 wrote and accumulating), LoadV
(async copy, offset -1, its tile consumed outside the modelled
dependencies), with pipeline depth 2.  Buffers: 0 = K tile (double
buffered), 1 = scores (double buffered), 2 = accumulator
(iteration-local), 3 = V tile (double buffered). -/

/-- Stage ids of the scenario: 0 = LoadK, 1 = Compute0, 2 = Compute1,
3 = LoadV, in declaration order (which is also the planned order). -/
def scenarioStages : List PStage :=
  [ { sid := 0, lag := 1, lane := .asyncCopy, reads := [], writes := [⟨0, 0, 1⟩] }
  , { sid := 1, lag := 0, lane := .syncCompute, reads := [⟨0, 0, 1⟩], writes := [⟨1, 0, 1⟩] }
  , { sid := 2, lag := 0, lane := .syncCompute, reads := [⟨1, 0, 1⟩, ⟨2, 0, 1⟩],
      writes := [⟨2, 0, 1⟩] }
  , { sid := 3, lag := 1, lane := .asyncCopy, reads := [], writes := [⟨3, 0, 1⟩] } ]

/-- Slot counts of the scenario buffers: the accumulator (buffer 2) is
iteration-local (single slot), the tiles are double buffered across the
two pipeline depths. -/
def scenarioBufSlots : Nat → Nat :=
  fun b => if b = 2 then 1 else 2

/-- The dependency graph of the scenario at depth 2. -/
def scenarioEdges : List DepEdge :=
  buildEdges scenarioBufSlots scenarioStages 2

/-- The synchronization classes of the scenario at depth 2. -/
def scenarioClasses : List SyncClass :=
  mkClasses scenarioEdges

/-- The emitted schedule of the scenario for a given trip count. -/
def emitScenario (trip : Nat) : List Instr :=
  emitAll scenarioStages scenarioClasses trip 2

/-- The scenario as one schedule-construction input. -/
def scenarioDesc : PipeDesc :=
  { declOrder := scenarioStages
    planned := scenarioStages
    bufSlots := scenarioBufSlots
    depth := 2
    trip := 8 }

/-! ## The attention pipeline of `examples/mha_pipeline.py`

Modelled from the spec and the example: the six pipelined operations of
the `flashattn` loop body — `gemm0` (MMA0), `softmax`, `rescale`, `gemm1`
(MMA1) at offset 0 and the async copies `loadk`, `loadv` at offset -1 —
with `K_shared`/`V_shared` as singly-buffered shared tiles whose cyclic
reuse is guarded by barriers (the `sync=[[0,13],[1,9]]` hints of the
example; the commented-out postprocessing workaround of the example names
exactly the wait of `loadk` on the barrier whose arrive follows MMA0).
Buffers: 0 = K_shared, 1 = V_shared, 2 = acc_s, 3 = acc_s_cast,
4 = acc_o, 5 = scores_max, 6 = scores_max_prev, 7 = scores_scale,
8 = scores_sum, 9 = logsum, 10 = Q_shared. -/

/-- Stage ids of the attention pipeline in planned (emission) order:
0 = gemm0, 1 = softmax, 2 = rescale, 3 = gemm1, 4 = loadk, 5 = loadv. -/
def mhaStages : List PStage :=
  [ { sid := 0, lag := 0, lane := .syncCompute,
      reads := [⟨0, 0, 1⟩, ⟨10, 0, 1⟩], writes := [⟨2, 0, 1⟩] }
  , { sid := 1, lag := 0, lane := .syncCompute,
      reads := [⟨2, 0, 1⟩, ⟨5, 0, 1⟩, ⟨6, 0, 1⟩, ⟨7, 0, 1⟩, ⟨8, 0, 1⟩, ⟨9, 0, 1⟩],
      writes := [⟨2, 0, 1⟩, ⟨3, 0, 1⟩, ⟨5, 0, 1⟩, ⟨6, 0, 1⟩, ⟨7, 0, 1⟩, ⟨8, 0, 1⟩, ⟨9, 0, 1⟩] }
  , { sid := 2, lag := 0, lane := .syncCompute,
      reads := [⟨4, 0, 1⟩, ⟨7, 0, 1⟩], writes := [⟨4, 0, 1⟩] }
  , { sid := 3, lag := 0, lane := .syncCompute,
      reads := [⟨1, 0, 1⟩, ⟨3, 0, 1⟩], writes := [⟨4, 0, 1⟩] }
  , { sid := 4, lag := 1, lane := .asyncCopy, reads := [], writes := [⟨0, 0, 1⟩] }
  , { sid := 5, lag := 1, lane := .asyncCopy, reads := [], writes := [⟨1, 0, 1⟩] } ]

/-- Modelled from the spec (section 4.3): the synchronization classes of
the attention pipeline — the lane-crossing dependencies between the async
copies and their compute consumers on the singly-buffered shared tiles.
Barrier 0: `loadk` of round `j` arrives, `gemm0` of round `j` waits (true
dependency on `K_shared`, spanning one emitted iteration).  Barrier 1:
`gemm0` of round `j` arrives, `loadk` writing round `j + 1` waits (the
wait guarding LoadK against the reuse of `K_shared`, within one emitted
iteration).  Barriers 2 and 3: the same two classes for `loadv`, `gemm1`
and `V_shared`. -/
def mhaClasses : List SyncClass :=
  [ { bid := 0, prodSid := 4, consSid := 0, dlog := 0, dslot := 1, bufs := [0] }
  , { bid := 1, prodSid := 0, consSid := 4, dlog := 1, dslot := 0, bufs := [0] }
  , { bid := 2, prodSid := 5, consSid := 3, dlog := 0, dslot := 1, bufs := [1] }
  , { bid := 3, prodSid := 3, consSid := 5, dlog := 1, dslot := 0, bufs := [1] } ]

/-- The emitted schedule of the attention pipeline for a given trip
count. -/
def emitMha (trip : Nat) : List Instr :=
  emitAll mhaStages mhaClasses trip 2

/-- Buffer kinds of the attention pipeline: the shared tiles rotate, the
fragment buffers (the accumulators and softmax statistics, and the
loop-invariant `Q_shared`) are iteration-local. -/
def mhaBufKind : Nat → BufKind :=
  fun b => if b = 0 ∨ b = 1 then .rotating else .persistent

/-- The six iteration-local fragment accumulators named by the example:
acc_o, scores_max, scores_max_prev, scores_scale, scores_sum, logsum. -/
def mhaPersistentBufs : List Nat := [4, 5, 6, 7, 8, 9]

/-! ## Claim theorems: launch frame, threads normalization, trip count,
determinism, and the concrete attention scenario -/

/-- C10: `KernelLaunchFrame.__enter__` returns the single iteration
variable of the first frame exactly when the frame stack has 5 frames, and
otherwise returns the iteration variables of all frames except the last
four (`frames[0:-4]`); hence a grid of `g ≠ 1` dimensions, whose stack has
`g + 4` frames, binds a list of `g` coordinates, while a 1-dimensional
grid (5 frames) binds one scalar. -/
theorem kernel_launch_enter_spec (frames : List KFrame) :
    (frames.length = 5 → kernelLaunchEnter frames = Sum.inl frames.headI.var)
    ∧ (frames.length ≠ 5 →
        kernelLaunchEnter frames
          = Sum.inr ((frames.take (frames.length - 4)).map KFrame.var))
    ∧ ((∃ v, kernelLaunchEnter frames = Sum.inl v) ↔ frames.length = 5)
    ∧ (∀ g, frames.length = g + 4 → g ≠ 1 →
        ∃ l, kernelLaunchEnter frames = Sum.inr l ∧ l.length = g) := by
  refine ⟨fun h => by simp [kernelLaunchEnter, h], fun h => by simp [kernelLaunchEnter, h], ?_, ?_⟩
  · constructor
    · rintro ⟨v, hv⟩
      by_contra h
      simp [kernelLaunchEnter, h] at hv
    · intro h
      exact ⟨frames.headI.var, by simp [kernelLaunchEnter, h]⟩
  · intro g hg hg1
    have h5 : frames.length ≠ 5 := by omega
    refine ⟨(frames.take (frames.length - 4)).map KFrame.var,
      by simp [kernelLaunchEnter, h5], ?_⟩
    simp [hg]

/-- Witness for C10 at concrete frame stacks: a 5-frame stack (1-D grid)
binds the scalar coordinate of the first frame, and a 6-frame stack (2-D
grid) binds the two leading coordinates. -/
theorem kernel_launch_enter_spec_witness :
    kernelLaunchEnter [⟨7⟩, ⟨1⟩, ⟨2⟩, ⟨3⟩, ⟨4⟩] = Sum.inl 7
    ∧ kernelLaunchEnter [⟨7⟩, ⟨8⟩, ⟨1⟩, ⟨2⟩, ⟨3⟩, ⟨4⟩] = Sum.inr [7, 8] := by
  constructor
  · exact (kernel_launch_enter_spec [⟨7⟩, ⟨1⟩, ⟨2⟩, ⟨3⟩, ⟨4⟩]).1 (by decide)
  · have h := (kernel_launch_enter_spec [⟨7⟩, ⟨8⟩, ⟨1⟩, ⟨2⟩, ⟨3⟩, ⟨4⟩]).2.1 (by decide)
    simpa using h

/-- C9: the `threads` argument of `Kernel`: an `int` `t` becomes
`[t, 1, 1]`; a `list` or `tuple` of length at most 3 is padded with
trailing ones to length 3; a list longer than 3 passes through unchanged;
any other type raises `ValueError` before a launch frame is constructed. -/
theorem kernel_threads_normalization :
    (∀ (blocks : List Int) (n : Int),
      Kernel blocks (.int n) = .ok ⟨blocks, [n, 1, 1]⟩)
    ∧ (∀ (blocks : List Int) (l : List Int), l.length ≤ 3 →
        Kernel blocks (.list l) = .ok ⟨blocks, l ++ List.replicate (3 - l.length) 1⟩
        ∧ (l ++ List.replicate (3 - l.length) 1).length = 3)
    ∧ (∀ (blocks : List Int) (l : List Int), 3 < l.length →
        Kernel blocks (.list l) = .ok ⟨blocks, l⟩)
    ∧ (∀ (blocks : List Int) (l : List Int), l.length ≤ 3 →
        Kernel blocks (.tuple l) = .ok ⟨blocks, l ++ List.replicate (3 - l.length) 1⟩
        ∧ (l ++ List.replicate (3 - l.length) 1).length = 3)
    ∧ (∀ (blocks : List Int) (l : List Int), 3 < l.length →
        Kernel blocks (.tuple l) = .ok ⟨blocks, l⟩)
    ∧ (∀ blocks : List Int,
        Kernel blocks .other
          = .error "ValueError: threads must be an integer or a list of integers") := by
  refine ⟨fun _ _ => rfl, fun blocks l h => ⟨rfl, ?_⟩, fun blocks l h => ?_,
    fun blocks l h => ⟨rfl, ?_⟩, fun blocks l h => ?_, fun _ => rfl⟩
  · simp
    omega
  · have h0 : 3 - l.length = 0 := by omega
    simp [Kernel, normalizeThreads, h0]
  · simp
    omega
  · have h0 : 3 - l.length = 0 := by omega
    simp [Kernel, normalizeThreads, h0]

/-- Witness for C9 at concrete arguments: `threads=256` becomes
`[256, 1, 1]`, a two-element list is padded, a four-element list passes
through, and a non-integer argument errors. -/
theorem kernel_threads_normalization_witness :
    Kernel [4] (.int 256) = .ok ⟨[4], [256, 1, 1]⟩
    ∧ Kernel [4] (.list [32, 2]) = .ok ⟨[4], [32, 2, 1]⟩
    ∧ Kernel [4] (.list [1, 2, 3, 4]) = .ok ⟨[4], [1, 2, 3, 4]⟩
    ∧ Kernel [4] .other
        = .error "ValueError: threads must be an integer or a list of integers" := by
  refine ⟨kernel_threads_normalization.1 [4] 256, ?_, ?_, kernel_threads_normalization.2.2.2.2.2 [4]⟩
  · exact (kernel_threads_normalization.2.1 [4] [32, 2] (by decide)).1
  · exact kernel_threads_normalization.2.2.1 [4] [1, 2, 3, 4] (by decide)

/-- C5: the trip count of the pipelined loop in the generated `flashattn`
kernel is a function of the launch-grid coordinate: with `is_casual` it is
`min(ceildiv(seq_len, block_N), ceildiv((bx+1)*block_M, block_N))`, so two
block coordinates can execute different numbers of iterations (e.g.
`bx = 0` and `bx = 1` at the default sizes 4096/128/176); without
`is_casual` it is `ceildiv(seq_len, block_N)` for every coordinate. -/
theorem flashattn_loop_range :
    (∀ seqLen blockM blockN bx,
      loopRange true seqLen blockM blockN bx
        = min (ceildiv seqLen blockN) (ceildiv ((bx + 1) * blockM) blockN))
    ∧ (∀ seqLen blockM blockN bx,
      loopRange false seqLen blockM blockN bx = ceildiv seqLen blockN)
    ∧ (∀ seqLen blockM blockN bx bx',
      loopRange false seqLen blockM blockN bx = loopRange false seqLen blockM blockN bx')
    ∧ loopRange true 4096 128 176 0 ≠ loopRange true 4096 128 176 1 :=
  ⟨fun _ _ _ _ => rfl, fun _ _ _ _ => rfl, fun _ _ _ _ _ => rfl, by decide⟩

/-- C6: schedule construction is deterministic — it is a pure function of
the declared stages, the planner hints, the buffer layout, the depth and
the trip count, so two constructions from identical inputs yield
bit-identical annotated schedules. -/
theorem schedule_construction_deterministic (d₁ d₂ : PipeDesc) (h : d₁ = d₂) :
    construct d₁ = construct d₂ :=
  congrArg construct h

/-- Witness for C6: two constructions from the attention-scenario input
agree. -/
theorem schedule_construction_deterministic_witness :
    construct scenarioDesc = construct scenarioDesc :=
  schedule_construction_deterministic scenarioDesc scenarioDesc rfl

/-- C4: the four-stage attention scenario at depth 2, trip count 8: the
derived synchronization classes consist of exactly one class, it is the
inter-iteration class covering LoadK → Compute0 (stage ids 0 → 1), every
steady-state body holds 4 stage instructions, and there is exactly one
prologue iteration and one drain iteration. -/
theorem attention_scenario_schedule :
    scenarioClasses
      = [{ bid := 0, prodSid := 0, consSid := 1, dlog := 0, dslot := 1, bufs := [0] }]
    ∧ (scenarioClasses.filter SyncClass.inter).length = 1
    ∧ ((scenarioClasses.filter SyncClass.inter).all fun c =>
        c.prodSid == 0 && c.consSid == 1) = true
    ∧ ((steadyPhase scenarioStages scenarioClasses 8 2).all fun b =>
        b.countP Instr.isExec == 4) = true
    ∧ (steadyPhase scenarioStages scenarioClasses 8 2).length = 7
    ∧ (prologuePhase scenarioStages scenarioClasses 8 2).length = 1
    ∧ (epiloguePhase scenarioStages scenarioClasses 8 2).length = 1 := by
  exact ⟨by decide, by decide, by decide, by decide, by decide, by decide, by decide⟩

/-! ## C2: prologue / steady-state / epilogue structure -/

/-- A guarded flatMap is a flatMap over the filtered list when the guard
agrees with the filter predicate on every element. -/
theorem flatMap_guard_eq_filter {α β : Type} (l : List α) (C : α → Prop)
    [DecidablePred C] (q : α → Bool) (A : α → List β)
    (h : ∀ s ∈ l, C s ↔ q s = true) :
    (l.flatMap fun s => if C s then A s else []) = (l.filter q).flatMap A := by
  induction l with
  | nil => rfl
  | cons x xs ih =>
    have hx := h x (List.mem_cons_self x xs)
    have hxs : ∀ s ∈ xs, C s ↔ q s = true := fun s hs => h s (List.mem_cons_of_mem x hs)
    by_cases hc : C x
    · rw [List.flatMap_cons, if_pos hc, List.filter_cons, if_pos (hx.mp hc),
        List.flatMap_cons, ih hxs]
    · have hq : ¬ q x = true := fun hq => hc (hx.mpr hq)
      rw [List.flatMap_cons, if_neg hc, List.filter_cons, if_neg hq, ih hxs]
      simp

/-- C2: for every pipelined loop of depth `depth ≥ 1`, stage lags within
the depth window, and trip count `trip ≥ depth`, the emitted stream splits
into exactly `depth - 1` prologue iterations, a steady-state window of
exactly `trip - (depth - 1)` iterations each executing every stage, and
`depth - 1` epilogue iterations draining exactly the stages whose logical
instances remain (those with `lag + i < depth - 1` at drain step `i`);
symmetrically, prologue step `i` activates exactly the lanes with
`depth - 1 ≤ i + lag`. -/
theorem pipeline_phase_structure (stages : List PStage) (classes : List SyncClass)
    (trip depth : Nat) (hd : 1 ≤ depth) (ht : depth ≤ trip)
    (hlag : ∀ s ∈ stages, s.lag ≤ depth - 1) :
    emitAll stages classes trip depth
      = (prologuePhase stages classes trip depth).flatten
        ++ (steadyPhase stages classes trip depth).flatten
        ++ (epiloguePhase stages classes trip depth).flatten
    ∧ (prologuePhase stages classes trip depth).length = depth - 1
    ∧ (steadyPhase stages classes trip depth).length = trip - (depth - 1)
    ∧ (epiloguePhase stages classes trip depth).length = depth - 1
    ∧ (∀ p, depth - 1 ≤ p → p < trip →
        slotBody stages classes trip depth p
          = stages.flatMap fun s => emitStage classes trip s (p + s.lag - (depth - 1)))
    ∧ (∀ i, i < depth - 1 →
        slotBody stages classes trip depth i
          = (stages.filter fun s => decide (depth - 1 ≤ i + s.lag)).flatMap
              fun s => emitStage classes trip s (i + s.lag - (depth - 1)))
    ∧ (∀ i, i < depth - 1 →
        slotBody stages classes trip depth (trip + i)
          = (stages.filter fun s => decide (s.lag + i < depth - 1)).flatMap
              fun s => emitStage classes trip s (trip + i + s.lag - (depth - 1))) := by
  refine ⟨?_, ?_, ?_, ?_, ?_, ?_, ?_⟩
  · have h1 : List.range' 0 (depth - 1) ++ List.range' (depth - 1) (trip - (depth - 1))
        = List.range' 0 trip := by
      have := List.range'_append 0 (depth - 1) (trip - (depth - 1)) 1
      simp only [Nat.one_mul, Nat.zero_add] at this
      rw [this]
      congr 1
      omega
    have h2 : List.range' 0 trip ++ List.range' trip (depth - 1)
        = List.range' 0 (trip + (depth - 1)) := by
      have := List.range'_append 0 trip (depth - 1) 1
      simp only [Nat.one_mul, Nat.zero_add] at this
      rw [this]
      congr 1
      omega
    have hdec : List.range (trip + (depth - 1))
        = (List.range (depth - 1) ++ List.range' (depth - 1) (trip - (depth - 1)))
            ++ List.range' trip (depth - 1) := by
      rw [List.range_eq_range', List.range_eq_range', h1, h2]
    rw [emitAll, hdec, List.flatMap_append, List.flatMap_append,
      prologuePhase, steadyPhase, epiloguePhase,
      ← List.flatMap_def, ← List.flatMap_def, ← List.flatMap_def,
      List.range_eq_range']
  · simp [prologuePhase]
  · simp [steadyPhase]
  · simp [epiloguePhase]
  · intro p hp1 hp2
    rw [slotBody]
    refine List.flatMap_congr fun s hs => ?_
    have := hlag s hs
    rw [if_pos (by omega)]
  · intro i hi
    rw [slotBody]
    refine flatMap_guard_eq_filter stages _ _ _ fun s hs => ?_
    have := hlag s hs
    simp only [decide_eq_true_eq]
    omega
  · intro i hi
    rw [slotBody]
    refine flatMap_guard_eq_filter stages _ _ _ fun s hs => ?_
    have := hlag s hs
    simp only [decide_eq_true_eq]
    omega

/-- Witness for C2 at the attention scenario (depth 2, trip 8): the
emitted stream is the concatenation of 1 prologue iteration, 7 steady
iterations and 1 drain iteration. -/
theorem pipeline_phase_structure_witness :
    emitScenario 8
      = (prologuePhase scenarioStages scenarioClasses 8 2).flatten
        ++ (steadyPhase scenarioStages scenarioClasses 8 2).flatten
        ++ (epiloguePhase scenarioStages scenarioClasses 8 2).flatten
    ∧ (prologuePhase scenarioStages scenarioClasses 8 2).length = 1
    ∧ (steadyPhase scenarioStages scenarioClasses 8 2).length = 7
    ∧ (epiloguePhase scenarioStages scenarioClasses 8 2).length = 1 := by
  have h := pipeline_phase_structure scenarioStages scenarioClasses 8 2
    (by omega) (by omega) (by decide)
  exact ⟨h.1, h.2.1, h.2.2.1, h.2.2.2.1⟩

/-! ## Per-stage iteration coverage: each stage executes its logical
instances 0, 1, ..., trip - 1 exactly once and in order -/

/-- Summing a one-element window over an index range yields the shifted
range: the slots `a ≤ p < a + m` contribute `p - a`, in order. -/
theorem window_flatMap (a m : Nat) :
    ∀ N, ((List.range N).flatMap fun p => if a ≤ p ∧ p < a + m then [p - a] else [])
      = List.range (min (N - a) m) := by
  intro N
  induction N with
  | zero => simp
  | succ N ih =>
    rw [List.range_succ, List.flatMap_append, ih, List.flatMap_cons, List.flatMap_nil]
    by_cases h : a ≤ N ∧ N < a + m
    · rw [if_pos h]
      have h1 : min (N - a) m = N - a := by omega
      have h2 : min (N + 1 - a) m = (N - a) + 1 := by omega
      rw [h1, h2, List.range_succ]
      simp
    · rw [if_neg h]
      simp only [List.append_nil]
      congr 1
      omega

/-- The execution instances contributed by one annotated stage emission:
just the instance of that stage. -/
theorem execsOf_emitStage (sid : Nat) (classes : List SyncClass) (trip : Nat)
    (s : PStage) (j : Nat) :
    execsOf sid (emitStage classes trip s j) = if s.sid = sid then [j] else [] := by
  unfold execsOf emitStage
  rw [List.filterMap_append, List.filterMap_append, List.filterMap_filterMap,
    List.filterMap_filterMap]
  have hw : (List.filterMap
      (fun c => ((if c.consSid == s.sid && decide (c.dlog ≤ j) then
          some (Instr.wait c.bid ((j - c.dlog) % 2) (j - c.dlog)) else none)).bind
        fun i => match i with
          | .exec s' j' => if s' = sid then some j' else none
          | _ => none) classes) = [] := by
    rw [List.filterMap_eq_nil_iff]
    intro c _
    by_cases hc : c.consSid == s.sid && decide (c.dlog ≤ j)
    · simp [hc]
    · simp [hc]
  have ha : (List.filterMap
      (fun c => ((if c.prodSid == s.sid && decide (j + c.dlog < trip) then
          some (Instr.arrive c.bid (j % 2) j) else none)).bind
        fun i => match i with
          | .exec s' j' => if s' = sid then some j' else none
          | _ => none) classes) = [] := by
    rw [List.filterMap_eq_nil_iff]
    intro c _
    by_cases hc : c.prodSid == s.sid && decide (j + c.dlog < trip)
    · simp [hc]
    · simp [hc]
  rw [hw, ha]
  by_cases hs : s.sid = sid
  · simp [hs]
  · simp [hs]

/-- The execution instances of stage `sid` in one physical slot. -/
theorem execsOf_slotBody (sid : Nat) (stages : List PStage) (classes : List SyncClass)
    (trip depth p : Nat) :
    execsOf sid (slotBody stages classes trip depth p)
      = stages.flatMap fun s =>
          if s.sid = sid ∧ depth - 1 ≤ p + s.lag ∧ p + s.lag < trip + (depth - 1)
          then [p + s.lag - (depth - 1)] else [] := by
  unfold slotBody execsOf
  rw [List.filterMap_flatMap]
  refine List.flatMap_congr fun s _ => ?_
  by_cases hv : depth - 1 ≤ p + s.lag ∧ p + s.lag < trip + (depth - 1)
  · rw [if_pos hv]
    have := execsOf_emitStage sid classes trip s (p + s.lag - (depth - 1))
    unfold execsOf at this
    rw [this]
    by_cases hs : s.sid = sid
    · rw [if_pos hs, if_pos ⟨hs, hv⟩]
    · rw [if_neg hs, if_neg (by tauto)]
  · rw [if_neg hv, if_neg (by tauto)]
    rfl

/-- The execution instances of stage `sid` across the whole emitted
stream, one slot at a time. -/
theorem execsOf_emitAll (sid : Nat) (stages : List PStage) (classes : List SyncClass)
    (trip depth : Nat) :
    execsOf sid (emitAll stages classes trip depth)
      = (List.range (trip + (depth - 1))).flatMap fun p =>
          execsOf sid (slotBody stages classes trip depth p) := by
  unfold emitAll execsOf
  rw [List.filterMap_flatMap]

/-- A stage whose slot-level contribution is a one-element window at
offset `a` executes exactly the logical instances `0, ..., trip - 1`, in
stream order. -/
theorem execsOf_window (sid : Nat) (stages : List PStage) (classes : List SyncClass)
    (trip depth a : Nat) (ha : a + trip ≤ trip + (depth - 1))
    (h : ∀ p, (stages.flatMap fun s =>
        if s.sid = sid ∧ depth - 1 ≤ p + s.lag ∧ p + s.lag < trip + (depth - 1)
        then [p + s.lag - (depth - 1)] else [])
      = if a ≤ p ∧ p < a + trip then [p - a] else []) :
    execsOf sid (emitAll stages classes trip depth) = List.range trip := by
  rw [execsOf_emitAll]
  have hcong : ∀ p ∈ List.range (trip + (depth - 1)),
      execsOf sid (slotBody stages classes trip depth p)
        = if a ≤ p ∧ p < a + trip then [p - a] else [] := by
    intro p _
    rw [execsOf_slotBody, h]
  rw [List.flatMap_congr hcong, window_flatMap]
  congr 1
  omega

/-- Each scenario stage executes the logical iterations
`0, ..., trip - 1` exactly once, in order. -/
theorem execsOf_scenario (trip : Nat) :
    execsOf 0 (emitScenario trip) = List.range trip
    ∧ execsOf 1 (emitScenario trip) = List.range trip
    ∧ execsOf 2 (emitScenario trip) = List.range trip
    ∧ execsOf 3 (emitScenario trip) = List.range trip := by
  refine ⟨execsOf_window 0 _ _ trip 2 0 (by omega) ?_,
    execsOf_window 1 _ _ trip 2 1 (by omega) ?_,
    execsOf_window 2 _ _ trip 2 1 (by omega) ?_,
    execsOf_window 3 _ _ trip 2 0 (by omega) ?_⟩ <;>
  · intro p
    simp [scenarioStages]
    try split_ifs <;> first | rfl | omega

/-- The three compute stages updating the iteration-local fragment
accumulators of the attention pipeline (softmax, rescale, gemm1) execute
the logical iterations `0, ..., trip - 1` exactly once, in order; so do
the other three stages. -/
theorem execsOf_mha (trip : Nat) :
    execsOf 0 (emitMha trip) = List.range trip
    ∧ execsOf 1 (emitMha trip) = List.range trip
    ∧ execsOf 2 (emitMha trip) = List.range trip
    ∧ execsOf 3 (emitMha trip) = List.range trip
    ∧ execsOf 4 (emitMha trip) = List.range trip
    ∧ execsOf 5 (emitMha trip) = List.range trip := by
  refine ⟨execsOf_window 0 _ _ trip 2 1 (by omega) ?_,
    execsOf_window 1 _ _ trip 2 1 (by omega) ?_,
    execsOf_window 2 _ _ trip 2 1 (by omega) ?_,
    execsOf_window 3 _ _ trip 2 1 (by omega) ?_,
    execsOf_window 4 _ _ trip 2 0 (by omega) ?_,
    execsOf_window 5 _ _ trip 2 0 (by omega) ?_⟩ <;>
  · intro p
    simp [mhaStages]
    try split_ifs <;> first | rfl | omega

/-! ## Scan induction infrastructure: folding slot by slot -/

theorem foldOpt_append (f : σ → Instr → Option σ) (l₁ l₂ : List Instr) :
    ∀ s, foldOpt f s (l₁ ++ l₂)
      = match foldOpt f s l₁ with
        | none => none
        | some t => foldOpt f t l₂ := by
  induction l₁ with
  | nil => intro s; rfl
  | cons i l ih =>
    intro s
    rw [List.cons_append]
    show (match f s i with
      | none => none
      | some t => foldOpt f t (l ++ l₂))
      = match (match f s i with
          | none => none
          | some t => foldOpt f t l) with
        | none => none
        | some t => foldOpt f t l₂
    cases f s i with
    | none => rfl
    | some t => exact ih t

theorem foldOpt_range (f : σ → Instr → Option σ) (body : Nat → List Instr)
    (inv : Nat → σ) (N : Nat)
    (h : ∀ k, k < N → foldOpt f (inv k) (body k) = some (inv (k + 1))) :
    foldOpt f (inv 0) ((List.range N).flatMap body) = some (inv N) := by
  induction N with
  | zero => rfl
  | succ N ih =>
    rw [List.range_succ, List.flatMap_append, foldOpt_append,
      ih (fun k hk => h k (by omega))]
    have := h N (by omega)
    simpa using this

def scenSeen (trip k : Nat) : Nat → Nat → Bool :=
  fun s j =>
    if s = 0 then decide (j < trip ∧ j < k)
    else if s = 1 then decide (j < trip ∧ j + 1 < k)
    else if s = 2 then decide (j < trip ∧ j + 1 < k)
    else if s = 3 then decide (j < trip ∧ j < k)
    else false

theorem scenario_classes_eval :
    scenarioClasses
      = [{ bid := 0, prodSid := 0, consSid := 1, dlog := 0, dslot := 1, bufs := [0] }] := by
  decide

theorem scenario_body_zero (trip : Nat) (h : 1 ≤ trip) :
    slotBody scenarioStages scenarioClasses trip 2 0
      = [.exec 0 0, .arrive 0 0 0, .exec 3 0] := by
  rw [scenario_classes_eval]
  have g1 : (2:Nat) - 1 ≤ 0 + 1 ∧ 0 + 1 < trip + (2 - 1) := by omega
  have g2 : ¬ ((2:Nat) - 1 ≤ 0 + 0 ∧ 0 + 0 < trip + (2 - 1)) := by omega
  simp only [slotBody, scenarioStages, List.flatMap_cons, List.flatMap_nil,
    if_pos g1, if_neg g2, emitStage, List.filterMap_cons, List.filterMap_nil]
  norm_num
  rw [if_pos (show 0 < trip by omega)]
  rfl

theorem scenario_body_mid (trip k : Nat) (h1 : 1 ≤ k) (h2 : k < trip) :
    slotBody scenarioStages scenarioClasses trip 2 k
      = [.exec 0 k, .arrive 0 (k % 2) k, .wait 0 ((k-1) % 2) (k-1),
         .exec 1 (k-1), .exec 2 (k-1), .exec 3 k] := by
  rw [scenario_classes_eval]
  have g1 : (2:Nat) - 1 ≤ k + 1 ∧ k + 1 < trip + (2 - 1) := by omega
  have g2 : (2:Nat) - 1 ≤ k + 0 ∧ k + 0 < trip + (2 - 1) := by omega
  simp only [slotBody, scenarioStages, List.flatMap_cons, List.flatMap_nil,
    if_pos g1, if_pos g2, emitStage, List.filterMap_cons, List.filterMap_nil]
  norm_num
  rw [if_pos h2]
  rfl

theorem scenario_body_last (trip : Nat) (h : 1 ≤ trip) :
    slotBody scenarioStages scenarioClasses trip 2 trip
      = [.wait 0 ((trip-1) % 2) (trip-1), .exec 1 (trip-1), .exec 2 (trip-1)] := by
  rw [scenario_classes_eval]
  have g1 : ¬ ((2:Nat) - 1 ≤ trip + 1 ∧ trip + 1 < trip + (2 - 1)) := by omega
  have g2 : (2:Nat) - 1 ≤ trip + 0 ∧ trip + 0 < trip + (2 - 1) := by omega
  simp only [slotBody, scenarioStages, List.flatMap_cons, List.flatMap_nil,
    if_pos g2, if_neg g1, emitStage, List.filterMap_cons, List.filterMap_nil]
  norm_num



theorem scen_dep_zero (trip : Nat) (h1 : 1 ≤ trip) :
    foldOpt (depStep [(0,1,0),(1,2,0),(2,2,1)]) (scenSeen trip 0)
      [.exec 0 0, .arrive 0 0 0, .exec 3 0] = some (scenSeen trip 1) := by
  simp only [foldOpt, depStep, List.all_cons, List.all_nil]
  norm_num
  funext s j
  simp only [seenUpd, scenSeen]
  split_ifs
  all_goals try rfl
  all_goals try omega
  all_goals try (rw [decide_eq_decide]; omega)
  all_goals try (rw [eq_comm, decide_eq_true_iff]; omega)

theorem scen_dep_mid (trip k : Nat) (h1 : 1 ≤ k) (h2 : k < trip) :
    foldOpt (depStep [(0,1,0),(1,2,0),(2,2,1)]) (scenSeen trip k)
      [.exec 0 k, .arrive 0 (k % 2) k, .wait 0 ((k-1) % 2) (k-1),
       .exec 1 (k-1), .exec 2 (k-1), .exec 3 k] = some (scenSeen trip (k + 1)) := by
  have cA : seenUpd (scenSeen trip k) 0 k 0 (k - 1) = true := by
    simp only [seenUpd, scenSeen]
    split_ifs
    all_goals try rfl
    all_goals try omega
    all_goals try (rw [decide_eq_true_iff]; omega)
  have cB : seenUpd (seenUpd (scenSeen trip k) 0 k) 1 (k-1) 1 (k - 1) = true
      ∧ (k - 1 = 0 ∨ seenUpd (seenUpd (scenSeen trip k) 0 k) 1 (k-1) 2 (k - 1 - 1) = true) := by
    constructor
    · simp [seenUpd]
    · rcases Nat.eq_or_lt_of_le h1 with h | h
      · left; omega
      · right
        simp only [seenUpd, scenSeen]
        split_ifs
        all_goals try rfl
        all_goals try omega
        all_goals try (rw [decide_eq_true_iff]; omega)
  simp only [foldOpt, depStep, List.all_cons, List.all_nil]
  norm_num
  rw [if_pos cA]
  norm_num
  rw [if_pos cB]
  norm_num
  funext s j
  simp only [seenUpd, scenSeen]
  split_ifs
  all_goals try rfl
  all_goals try omega
  all_goals try (rw [decide_eq_decide]; omega)
  all_goals try (rw [eq_comm, decide_eq_true_iff]; omega)

theorem scen_dep_last (trip : Nat) (h1 : 1 ≤ trip) :
    foldOpt (depStep [(0,1,0),(1,2,0),(2,2,1)]) (scenSeen trip trip)
      [.wait 0 ((trip-1) % 2) (trip-1), .exec 1 (trip-1), .exec 2 (trip-1)]
      = some (scenSeen trip (trip + 1)) := by
  have cA : scenSeen trip trip 0 (trip - 1) = true := by
    simp only [scenSeen]
    split_ifs
    all_goals try rfl
    all_goals try omega
    all_goals try (rw [decide_eq_true_iff]; omega)
  have cB : seenUpd (scenSeen trip trip) 1 (trip-1) 1 (trip - 1) = true
      ∧ (trip - 1 = 0 ∨ seenUpd (scenSeen trip trip) 1 (trip-1) 2 (trip - 1 - 1) = true) := by
    constructor
    · simp [seenUpd]
    · rcases Nat.eq_or_lt_of_le h1 with h | h
      · left; omega
      · right
        simp only [seenUpd, scenSeen]
        split_ifs
        all_goals try rfl
        all_goals try omega
        all_goals try (rw [decide_eq_true_iff]; omega)
  simp only [foldOpt, depStep, List.all_cons, List.all_nil]
  norm_num
  rw [if_pos cA]
  norm_num
  rw [if_pos cB]
  norm_num
  funext s j
  simp only [seenUpd, scenSeen]
  split_ifs
  all_goals try rfl
  all_goals try omega
  all_goals try (rw [decide_eq_decide]; omega)
  all_goals try (rw [eq_comm, decide_eq_true_iff]; omega)

theorem scen_dep_step (trip : Nat) : ∀ k, k < trip + 1 →
    foldOpt (depStep [(0,1,0),(1,2,0),(2,2,1)]) (scenSeen trip k)
      (slotBody scenarioStages scenarioClasses trip 2 k)
      = some (scenSeen trip (k + 1)) := by
  intro k hk
  rcases Nat.eq_zero_or_pos trip with htrip | htrip
  · subst htrip
    have hk0 : k = 0 := by omega
    subst hk0
    have hb : slotBody scenarioStages scenarioClasses 0 2 0 = [] := by decide
    rw [hb]
    have hs : scenSeen 0 0 = scenSeen 0 1 := by
      funext s j
      simp only [scenSeen]
      split_ifs
      all_goals try rfl
      all_goals (rw [decide_eq_decide]; omega)
    show some (scenSeen 0 0) = some (scenSeen 0 1)
    rw [hs]
  · rcases Nat.eq_zero_or_pos k with hk0 | hk1
    · subst hk0
      rw [scenario_body_zero trip htrip]
      exact scen_dep_zero trip htrip
    · rcases Nat.lt_or_ge k trip with hlt | hge
      · rw [scenario_body_mid trip k hk1 hlt]
        exact scen_dep_mid trip k hk1 hlt
      · have hkt : k = trip := by omega
        rw [hkt, scenario_body_last trip htrip]
        exact scen_dep_last trip htrip

theorem scen_dep_ok (trip : Nat) :
    depOrderOk (depTriples scenarioEdges) (emitScenario trip) = true := by
  have htr : depTriples scenarioEdges = [(0,1,0),(1,2,0),(2,2,1)] := by decide
  have h0 : (fun _ _ => false) = scenSeen trip 0 := by
    funext s j
    simp only [scenSeen]
    split_ifs
    all_goals try rfl
    all_goals (rw [eq_comm]; rw [decide_eq_false_iff_not]; omega)
  have hN : emitScenario trip
      = (List.range (trip + 1)).flatMap (slotBody scenarioStages scenarioClasses trip 2) := by
    rfl
  rw [depOrderOk, htr, hN, h0,
    foldOpt_range _ _ (scenSeen trip) (trip + 1) (scen_dep_step trip)]
  rfl



def mhaPend (trip k : Nat) : Nat → Nat → List Nat :=
  fun b q =>
    if (b = 0 ∨ b = 2) ∧ q = (k - 1) % 2 ∧ 1 ≤ k ∧ k ≤ trip then [k - 1] else []

theorem mha_body_zero (trip : Nat) (h : 1 ≤ trip) :
    slotBody mhaStages mhaClasses trip 2 0
      = [.exec 4 0, .arrive 0 0 0, .exec 5 0, .arrive 2 0 0] := by
  have g1 : (2:Nat) - 1 ≤ 0 + 1 ∧ 0 + 1 < trip + (2 - 1) := by omega
  have g2 : ¬ ((2:Nat) - 1 ≤ 0 + 0 ∧ 0 + 0 < trip + (2 - 1)) := by omega
  simp only [slotBody, mhaStages, mhaClasses, List.flatMap_cons, List.flatMap_nil,
    if_pos g1, if_neg g2, emitStage, List.filterMap_cons, List.filterMap_nil]
  norm_num
  have hp : 0 < trip := by omega
  simp [hp]

theorem mha_body_mid (trip k : Nat) (h1 : 1 ≤ k) (h2 : k < trip) :
    slotBody mhaStages mhaClasses trip 2 k
      = [.wait 0 ((k-1) % 2) (k-1), .exec 0 (k-1), .arrive 1 ((k-1) % 2) (k-1),
         .exec 1 (k-1), .exec 2 (k-1),
         .wait 2 ((k-1) % 2) (k-1), .exec 3 (k-1), .arrive 3 ((k-1) % 2) (k-1),
         .wait 1 ((k-1) % 2) (k-1), .exec 4 k, .arrive 0 (k % 2) k,
         .wait 3 ((k-1) % 2) (k-1), .exec 5 k, .arrive 2 (k % 2) k] := by
  have g1 : (2:Nat) - 1 ≤ k + 1 ∧ k + 1 < trip + (2 - 1) := by omega
  have g2 : (2:Nat) - 1 ≤ k + 0 ∧ k + 0 < trip + (2 - 1) := by omega
  simp only [slotBody, mhaStages, mhaClasses, List.flatMap_cons, List.flatMap_nil,
    if_pos g1, if_pos g2, emitStage, List.filterMap_cons, List.filterMap_nil]
  norm_num
  have hp1 : k - 1 + 1 < trip := by omega
  have hp2 : k + 0 < trip := by omega
  simp [hp1, hp2, h1, h2]

theorem mha_body_last (trip : Nat) (h : 1 ≤ trip) :
    slotBody mhaStages mhaClasses trip 2 trip
      = [.wait 0 ((trip-1) % 2) (trip-1), .exec 0 (trip-1),
         .exec 1 (trip-1), .exec 2 (trip-1),
         .wait 2 ((trip-1) % 2) (trip-1), .exec 3 (trip-1)] := by
  have g1 : ¬ ((2:Nat) - 1 ≤ trip + 1 ∧ trip + 1 < trip + (2 - 1)) := by omega
  have g2 : (2:Nat) - 1 ≤ trip + 0 ∧ trip + 0 < trip + (2 - 1) := by omega
  simp only [slotBody, mhaStages, mhaClasses, List.flatMap_cons, List.flatMap_nil,
    if_pos g2, if_neg g1, emitStage, List.filterMap_cons, List.filterMap_nil]
  norm_num
  have hq : ¬ (trip - 1 + 1 < trip) := by omega
  simp [hq]



theorem mha_pair_zero (trip : Nat) (h : 1 ≤ trip) :
    foldOpt pairStep (mhaPend trip 0)
      [.exec 4 0, .arrive 0 0 0, .exec 5 0, .arrive 2 0 0]
      = some (mhaPend trip 1) := by
  simp only [foldOpt, pairStep]
  congr 1
  funext b q
  simp only [pendUpd, mhaPend]
  split_ifs
  all_goals try rfl
  all_goals try omega
  all_goals simp_all
  all_goals omega



set_option maxHeartbeats 1000000 in
theorem mha_pair_mid (trip k : Nat) (h1 : 1 ≤ k) (h2 : k < trip) :
    foldOpt pairStep (mhaPend trip k)
      [.wait 0 ((k-1) % 2) (k-1), .exec 0 (k-1), .arrive 1 ((k-1) % 2) (k-1),
       .exec 1 (k-1), .exec 2 (k-1),
       .wait 2 ((k-1) % 2) (k-1), .exec 3 (k-1), .arrive 3 ((k-1) % 2) (k-1),
       .wait 1 ((k-1) % 2) (k-1), .exec 4 k, .arrive 0 (k % 2) k,
       .wait 3 ((k-1) % 2) (k-1), .exec 5 k, .arrive 2 (k % 2) k]
      = some (mhaPend trip (k + 1)) := by
  have hk3 : k ≤ trip := by omega
  have hpar : ¬ (k % 2 = (k - 1) % 2) := by omega
  have hpar2 : ¬ ((k - 1) % 2 = k % 2) := by omega
  simp only [foldOpt, pairStep, pendUpd, mhaPend, h1, hk3, hpar, hpar2]
  norm_num
  iterate 5
    try simp only [pendUpd, mhaPend, h1, hk3, hpar, hpar2]
    try norm_num
  congr 1
  funext b q
  simp only [pendUpd, mhaPend]
  split_ifs
  all_goals try rfl
  all_goals try omega
  all_goals simp_all
  all_goals omega



set_option maxHeartbeats 1000000 in
theorem mha_pair_last (trip : Nat) (h1 : 1 ≤ trip) :
    foldOpt pairStep (mhaPend trip trip)
      [.wait 0 ((trip-1) % 2) (trip-1), .exec 0 (trip-1),
       .exec 1 (trip-1), .exec 2 (trip-1),
       .wait 2 ((trip-1) % 2) (trip-1), .exec 3 (trip-1)]
      = some (mhaPend trip (trip + 1)) := by
  have hk3 : trip ≤ trip := Nat.le_refl trip
  iterate 5
    try simp only [foldOpt, pairStep, pendUpd, mhaPend, h1, hk3]
    try norm_num
  congr 1
  funext b q
  simp only [pendUpd, mhaPend]
  split_ifs
  all_goals try rfl
  all_goals try omega
  all_goals simp_all
  all_goals omega

theorem mha_pair_step (trip : Nat) : ∀ k, k < trip + 1 →
    foldOpt pairStep (mhaPend trip k)
      (slotBody mhaStages mhaClasses trip 2 k)
      = some (mhaPend trip (k + 1)) := by
  intro k hk
  rcases Nat.eq_zero_or_pos trip with htrip | htrip
  · subst htrip
    have hk0 : k = 0 := by omega
    subst hk0
    have hb : slotBody mhaStages mhaClasses 0 2 0 = [] := by decide
    rw [hb]
    have hs : mhaPend 0 0 = mhaPend 0 1 := by
      funext b q
      simp only [mhaPend]
      split_ifs
      all_goals try rfl
      all_goals omega
    show some (mhaPend 0 0) = some (mhaPend 0 1)
    rw [hs]
  · rcases Nat.eq_zero_or_pos k with hk0 | hk1
    · subst hk0
      rw [mha_body_zero trip htrip]
      exact mha_pair_zero trip htrip
    · rcases Nat.lt_or_ge k trip with hlt | hge
      · rw [mha_body_mid trip k hk1 hlt]
        exact mha_pair_mid trip k hk1 hlt
      · have hkt : k = trip := by omega
        rw [hkt, mha_body_last trip htrip]
        exact mha_pair_last trip htrip

theorem mha_pairing_ok (trip : Nat) : pairingOk (emitMha trip) = true := by
  have h0 : (fun _ _ => ([] : List Nat)) = mhaPend trip 0 := by
    funext b q
    simp only [mhaPend]
    split_ifs
    all_goals try rfl
    all_goals omega
  have hN : emitMha trip
      = (List.range (trip + 1)).flatMap (slotBody mhaStages mhaClasses trip 2) := rfl
  rw [pairingOk, hN, h0,
    foldOpt_range _ _ (mhaPend trip) (trip + 1) (mha_pair_step trip)]
  rfl

/-! ## Every emitted barrier instruction comes from a synchronization
class, with the parity of its round -/

/-- A property of instructions that holds for every stage execution and
for every barrier arrive/wait generated from a class of the list holds
everywhere in the emitted stream. -/
theorem emitAll_all (stages : List PStage) (classes : List SyncClass) (trip depth : Nat)
    (f : Instr → Bool)
    (hexec : ∀ sid j, f (.exec sid j) = true)
    (hwait : ∀ c ∈ classes, ∀ r, f (.wait c.bid (r % 2) r) = true)
    (harr : ∀ c ∈ classes, ∀ r, f (.arrive c.bid (r % 2) r) = true) :
    (emitAll stages classes trip depth).all f = true := by
  rw [List.all_eq_true]
  intro i hi
  rw [emitAll, List.mem_flatMap] at hi
  obtain ⟨p, _, hi⟩ := hi
  rw [slotBody, List.mem_flatMap] at hi
  obtain ⟨s, _, hi⟩ := hi
  by_cases hv : depth - 1 ≤ p + s.lag ∧ p + s.lag < trip + (depth - 1)
  · rw [if_pos hv, emitStage] at hi
    rcases List.mem_append.mp hi with hwe | ha
    · rcases List.mem_append.mp hwe with hw | he
      · rw [List.mem_filterMap] at hw
        obtain ⟨c, hc, hcw⟩ := hw
        by_cases hcond : c.consSid == s.sid && decide (c.dlog ≤ p + s.lag - (depth - 1))
        · rw [if_pos hcond] at hcw
          have := Option.some.inj hcw
          subst this
          exact hwait c hc _
        · rw [if_neg hcond] at hcw
          cases hcw
      · have := List.mem_singleton.mp he
        subst this
        exact hexec s.sid _
    · rw [List.mem_filterMap] at ha
      obtain ⟨c, hc, hca⟩ := ha
      by_cases hcond : c.prodSid == s.sid && decide (p + s.lag - (depth - 1) + c.dlog < trip)
      · rw [if_pos hcond] at hca
        have := Option.some.inj hca
        subst this
        exact harr c hc _
      · rw [if_neg hcond] at hca
        cases hca
  · rw [if_neg hv] at hi
    cases hi

/-- Every barrier instruction carries the parity value of its round:
`(round / period) % 2` with period 1, flipped once per full round trip of
the reused identifier. -/
def parityMatchesRound : Instr → Bool
  | .exec _ _ => true
  | .arrive _ q r => q == r % 2
  | .wait _ q r => q == r % 2

/-- A barrier instruction touches only rotating buffers: every class that
owns its identifier conflicts only on buffers that are not
iteration-local. -/
def barrierOnRotating (classes : List SyncClass) (kind : Nat → BufKind) : Instr → Bool
  | .exec _ _ => true
  | .arrive b _ _ =>
    classes.all fun c => !(c.bid == b) || c.bufs.all fun x => kind x == .rotating
  | .wait b _ _ =>
    classes.all fun c => !(c.bid == b) || c.bufs.all fun x => kind x == .rotating

/-! ## Claim theorems: barrier pairing, trip-count boundaries, persistent
buffers -/

/-- C1: in every schedule emitted for the pipelined attention loop, the
barrier-pairing scan succeeds: every emitted wait on an identifier-parity
pair finds exactly one arrive of that identifier-parity reachable backward
in program order without an intervening wait on the same identifier-parity
— and that arrive belongs to the round the wait names (`pairStep` checks
the pending list equals exactly the singleton of the round of the wait), so
each wait — in particular the wait of `loadk` on barrier 1 guarding the
reuse of `K_shared` — observes the arrive of the matching round, not the
previous round.  Every barrier instruction carries the parity
`(round / period) % 2` (period 1), flipped once per full round trip
through its reused identifier. -/
theorem barrier_pairing_complete (trip : Nat) :
    pairingOk (emitMha trip) = true
    ∧ (emitMha trip).all parityMatchesRound = true := by
  constructor
  · exact mha_pairing_ok trip
  · refine emitAll_all mhaStages mhaClasses trip 2 parityMatchesRound
      (fun _ _ => rfl) (fun c _ r => ?_) (fun c _ r => ?_)
    · simp [parityMatchesRound]
    · simp [parityMatchesRound]

/-- C3: trip-count boundary for the ramp/drain generator on the four-stage
scenario — for every trip count (hence for 0, 1, depth-1, depth, depth+1
and large N alike): every stage executes exactly the logical iterations
`0, ..., trip - 1`, once each and in order, so the total number of emitted
logical iterations is exactly the trip count; every dependency edge
`A → B` with logical distance Δ (offset difference in emitted slots) has
the effect of `A` for instance `i` placed before the consuming read of `B`
for instance `i + Δ`; trip count 0 yields an empty schedule; and trip
count 1 at depth 2 degenerates ramp plus drain into the single logical
iteration 0, whose barriers (rounds all 0) pair an arrive and wait of the
same logical iteration — no barrier spans two logical iterations, as every
synchronization class of the scenario has `dlog = 0`. -/
theorem trip_count_boundary (trip : Nat) :
    (execsOf 0 (emitScenario trip) = List.range trip
      ∧ execsOf 1 (emitScenario trip) = List.range trip
      ∧ execsOf 2 (emitScenario trip) = List.range trip
      ∧ execsOf 3 (emitScenario trip) = List.range trip)
    ∧ depOrderOk (depTriples scenarioEdges) (emitScenario trip) = true
    ∧ (trip = 0 → emitScenario trip = [])
    ∧ (trip = 1 → emitScenario trip
        = [.exec 0 0, .arrive 0 0 0, .exec 3 0, .wait 0 0 0, .exec 1 0, .exec 2 0])
    ∧ (scenarioClasses.all fun c => c.dlog == 0) = true := by
  refine ⟨execsOf_scenario trip, scen_dep_ok trip, ?_, ?_, by decide⟩
  · rintro rfl
    decide
  · rintro rfl
    decide

/-- Witness for C3 at the boundary trip counts 0, 1 and 2: the empty
schedule, the degenerate single-iteration schedule, and exact iteration
coverage at trip count 2. -/
theorem trip_count_boundary_witness :
    emitScenario 0 = []
    ∧ emitScenario 1
        = [.exec 0 0, .arrive 0 0 0, .exec 3 0, .wait 0 0 0, .exec 1 0, .exec 2 0]
    ∧ execsOf 1 (emitScenario 2) = List.range 2 :=
  ⟨(trip_count_boundary 0).2.2.1 rfl, (trip_count_boundary 1).2.2.2.1 rfl,
    (trip_count_boundary 2).1.2.1⟩

/-- C7: the iteration-local fragment accumulators of the attention kernel
(acc_o, scores_max, scores_max_prev, scores_scale, scores_sum, logsum;
buffers 4 to 9) are never assigned rotating slots (the compile-time slot
assignment of a persistent buffer is constantly 0) and never receive
barrier arrive/wait annotations (every barrier instruction of every emitted
schedule belongs to a class whose conflict buffers are all rotating); the
read-after-write ordering of their in-place updates across iterations is
program order alone: the softmax, rescale and gemm1 stages that update
them execute their instances `0, ..., trip - 1` in increasing order in the
emitted stream. -/
theorem persistent_buffers_unbarriered (trip : Nat) :
    (emitMha trip).all (barrierOnRotating mhaClasses mhaBufKind) = true
    ∧ (mhaPersistentBufs.all fun b => mhaBufKind b == .persistent) = true
    ∧ execsOf 1 (emitMha trip) = List.range trip
    ∧ execsOf 2 (emitMha trip) = List.range trip
    ∧ execsOf 3 (emitMha trip) = List.range trip
    ∧ (∀ iter depth, slotOfBufIter .persistent iter depth
        = slotOfBufIter .persistent 0 depth) := by
  refine ⟨?_, by decide, (execsOf_mha trip).2.1, (execsOf_mha trip).2.2.1,
    (execsOf_mha trip).2.2.2.1, fun _ _ => rfl⟩
  refine emitAll_all mhaStages mhaClasses trip 2 _
    (fun _ _ => rfl) (fun c hc r => ?_) (fun c hc r => ?_) <;>
  · fin_cases hc <;> rfl

/-! ## C8: the callable built by ConvertTorch -/

/-- Indexing a zip is indexing both lists. -/
theorem zip_get? {α β : Type} : ∀ (l : List α) (l' : List β) (n : Nat),
    (l.zip l').get? n
      = match l.get? n, l'.get? n with
        | some a, some b => some (a, b)
        | some _, none => none
        | none, _ => none := by
  intro l
  induction l with
  | nil =>
    intro l' n
    cases l' <;> cases n <;> rfl
  | cons a as ih =>
    intro l' n
    cases l' with
    | nil =>
      cases n with
      | zero => rfl
      | succ n =>
        show (none : Option (α × β)) = _
        cases h : (a :: as).get? (n + 1) <;> rfl
    | cons b bs =>
      cases n with
      | zero => rfl
      | succ n => exact ih bs n

/-- Characterization of the argument-assembly loop: when the supplied
inputs are exactly as many as the parameter positions outside
`result_idx`, assembly succeeds consuming all inputs; positions in
`result_idx` hold fresh uninitialized tensors, the other positions hold
the supplied inputs in order. -/
theorem buildArgs_spec {α : Type} (ridx : List Nat) :
    ∀ (l : List (Nat × TParam)) (ins : List α),
      ins.length = l.countP (fun x => !decide (x.1 ∈ ridx)) →
      ∃ args, buildArgs ridx l ins = some (args, [])
        ∧ args.length = l.length
        ∧ ((l.zip args).filterMap fun pa =>
            if pa.1.1 ∈ ridx then none else some pa.2) = ins.map TorchVal.given
        ∧ (∀ pa ∈ l.zip args, pa.1.1 ∈ ridx →
            pa.2 = TorchVal.empty pa.1.2.dtype pa.1.2.shape) := by
  intro l
  induction l with
  | nil =>
    intro ins h
    have hnil : ins = [] := List.eq_nil_of_length_eq_zero (by simpa using h)
    subst hnil
    refine ⟨[], rfl, rfl, rfl, ?_⟩
    intro pa hpa
    cases hpa
  | cons ip rest ih =>
    intro ins h
    obtain ⟨i, p⟩ := ip
    rw [List.countP_cons] at h
    by_cases hm : i ∈ ridx
    · have hcount : ins.length = rest.countP (fun x => !decide (x.1 ∈ ridx)) := by
        simp [hm] at h
        exact h
      obtain ⟨args, hba, hlen, hfm, hemp⟩ := ih ins hcount
      refine ⟨.empty p.dtype p.shape :: args, ?_, by simp [hlen], ?_, ?_⟩
      · simp only [buildArgs, if_pos hm, hba, Option.map_some]
        rfl
      · simp only [List.zip_cons_cons, List.filterMap_cons, if_pos hm]
        exact hfm
      · intro pa hpa hmem
        rcases List.mem_cons.mp hpa with h1 | h1
        · subst h1
          rfl
        · exact hemp pa h1 hmem
    · have hpos : 0 < ins.length := by
        simp [hm] at h
        omega
      cases ins with
      | nil => simp at hpos
      | cons a ins' =>
        have hcount : ins'.length = rest.countP (fun x => !decide (x.1 ∈ ridx)) := by
          simp [hm] at h
          omega
        obtain ⟨args, hba, hlen, hfm, hemp⟩ := ih ins' hcount
        refine ⟨.given a :: args, ?_, by simp [hlen], ?_, ?_⟩
        · simp only [buildArgs, if_neg hm, hba, Option.map_some]
          rfl
        · simp only [List.zip_cons_cons, List.filterMap_cons, if_neg hm, List.map_cons]
          rw [hfm]
        · intro pa hpa hmem
          rcases List.mem_cons.mp hpa with h1 | h1
          · subst h1
            exact absurd hmem hm
          · exact hemp pa h1 hmem



/-- With `result_idx` duplicate-free and within range, the number of
parameter positions outside it is the total minus its length. -/
theorem countP_enum_not_mem (ridx : List Nat) (params : List TParam)
    (hnd : ridx.Nodup) (hlt : ∀ i ∈ ridx, i < params.length) :
    params.enum.countP (fun x => !decide (x.1 ∈ ridx))
      = params.length - ridx.length := by
  have h1 : params.enum.countP (fun x => decide (x.1 ∈ ridx))
      = (List.range params.length).countP (fun i => decide (i ∈ ridx)) := by
    rw [← List.enum_map_fst params, List.countP_map]
    rfl
  have h2 : (List.range params.length).countP (fun i => decide (i ∈ ridx))
      = ridx.length := by
    rw [List.countP_eq_length_filter]
    have hperm : ((List.range params.length).filter
        (fun i => decide (i ∈ ridx))).Perm ridx := by
      rw [List.perm_ext_iff_of_nodup (List.Nodup.filter _ (List.nodup_range _)) hnd]
      intro a
      simp only [List.mem_filter, List.mem_range, decide_eq_true_eq]
      constructor
      · rintro ⟨_, ha⟩
        exact ha
      · intro ha
        exact ⟨hlt a ha, ha⟩
    exact hperm.length_eq
  have h3 := List.length_eq_countP_add_countP (fun x => decide (x.1 ∈ ridx)) params.enum
  have h4 : params.enum.countP (fun x => !decide (x.1 ∈ ridx))
      = params.enum.countP (fun a => decide ¬(decide (a.1 ∈ ridx) = true)) := by
    refine List.countP_congr fun a _ => ?_
    simp
  have h5 : params.enum.length = params.length := List.enum_length
  omega

/-- Collecting existing positions of a list with `mapM` succeeds and
returns the values at those positions, in order. -/
theorem mapM_get?_spec {α : Type} (args : List (TorchVal α)) :
    ∀ (ridx : List Nat), (∀ i ∈ ridx, ∃ t, args.get? i = some t) →
      ∃ outs, ridx.mapM (fun i => args.get? i) = some outs
        ∧ outs.length = ridx.length
        ∧ ∀ pa ∈ ridx.zip outs, args.get? pa.1 = some pa.2 := by
  intro ridx
  induction ridx with
  | nil =>
    intro h
    refine ⟨[], rfl, rfl, ?_⟩
    intro pa hpa
    cases hpa
  | cons i rest ih =>
    intro h
    obtain ⟨t, ht⟩ := h i (List.mem_cons_self i rest)
    obtain ⟨outs, ho, hol, hpa⟩ := ih (fun j hj => h j (List.mem_cons_of_mem i hj))
    refine ⟨t :: outs, ?_, by simp [hol], ?_⟩
    · rw [List.mapM_cons, ht, ho]
      rfl
    · intro pa hpa2
      rcases List.mem_cons.mp hpa2 with h1 | h1
      · subst h1
        exact ht
      · exact hpa pa h1



/-- C8: the callable built by `ConvertTorch._convert_torch_func` — when
the number of supplied inputs plus the number of result indices differs
from the parameter count it raises `ValueError` without invoking the
kernel (no `CallResult` is produced); otherwise (for well-formed result
indices: duplicate-free and in range) the kernel is invoked exactly once
with an argument list holding a fresh uninitialized tensor at every index
of `result_idx` and the supplied inputs, in order, at the remaining
positions, and the call returns the single output tensor when
`len(result_idx) == 1` and otherwise the list of output tensors in
`result_idx` order. -/
theorem convert_torch_func_spec {α : Type} (params : List TParam) (ridx : List Nat)
    (ins : List α) :
    (ins.length + ridx.length ≠ params.length →
      convertTorchFunc params ridx ins
        = Except.error "ValueError: parameter count mismatch")
    ∧ (ins.length + ridx.length = params.length → ridx.Nodup →
        (∀ i ∈ ridx, i < params.length) →
        ∃ r : CallResult α, convertTorchFunc params ridx ins = Except.ok r
          ∧ r.kernelArgs.length = params.length
          ∧ (∀ i ∈ ridx, ∀ p, params.get? i = some p →
              r.kernelArgs.get? i = some (TorchVal.empty p.dtype p.shape))
          ∧ ((params.enum.zip r.kernelArgs).filterMap fun pa =>
              if pa.1.1 ∈ ridx then none else some pa.2) = ins.map TorchVal.given
          ∧ (ridx.length = 1 →
              ∃ t, r.kernelArgs.get? ridx.headI = some t ∧ r.output = Sum.inl t)
          ∧ (ridx.length ≠ 1 →
              ∃ outs, outs.length = ridx.length ∧ r.output = Sum.inr outs
                ∧ ∀ pa ∈ ridx.zip outs,
                    r.kernelArgs.get? pa.1 = some pa.2)) := by
  constructor
  · intro hne
    rw [convertTorchFunc, if_pos hne]
  · intro hlen hnd hlt
    have hcount : ins.length = params.enum.countP (fun x => !decide (x.1 ∈ ridx)) := by
      rw [countP_enum_not_mem ridx params hnd hlt]
      omega
    obtain ⟨args, hba, halen, hfm, hemp⟩ := buildArgs_spec ridx params.enum ins hcount
    have halen2 : args.length = params.length := by
      rw [halen, List.enum_length]
    have hsome : ∀ i ∈ ridx, ∃ t, args.get? i = some t := by
      intro i hi
      cases hq : args.get? i with
      | none =>
        rw [List.get?_eq_none] at hq
        have := hlt i hi
        omega
      | some t => exact ⟨t, rfl⟩
    have hempt : ∀ i ∈ ridx, ∀ p, params.get? i = some p →
        args.get? i = some (TorchVal.empty p.dtype p.shape) := by
      intro i hi p hp
      obtain ⟨t, ht⟩ := hsome i hi
      have hzip : (params.enum.zip args).get? i = some ((i, p), t) := by
        rw [zip_get?, List.get?_enum, hp, ht]
        rfl
      have hmem := List.get?_mem hzip
      have h2 := hemp _ hmem hi
      have ht2 : t = TorchVal.empty p.dtype p.shape := by simpa using h2
      rw [ht, ht2]
    by_cases h1 : ridx.length = 1
    · obtain ⟨i₀, hr⟩ := List.length_eq_one.mp h1
      subst hr
      have hi₀ : i₀ ∈ [i₀] := List.mem_singleton.mpr rfl
      have hplt := hlt i₀ hi₀
      have hpex : ∃ p, params.get? i₀ = some p := by
        cases hq : params.get? i₀ with
        | none =>
          rw [List.get?_eq_none] at hq
          omega
        | some p => exact ⟨p, rfl⟩
      obtain ⟨p, hp⟩ := hpex
      have hget := hempt i₀ hi₀ p hp
      refine ⟨⟨args, Sum.inl (TorchVal.empty p.dtype p.shape)⟩, ?_, halen2, hempt, hfm,
        ?_, ?_⟩
      · have hne2 : ¬(ins.length + ([i₀] : List Nat).length ≠ params.length) := by
          omega
        simp only [convertTorchFunc, if_neg hne2, hba, if_pos h1, List.headI, hget]
      · intro _
        exact ⟨TorchVal.empty p.dtype p.shape, hget, rfl⟩
      · intro hc
        exact absurd h1 hc
    · obtain ⟨outs, hmap, holen, hozip⟩ := mapM_get?_spec args ridx hsome
      refine ⟨⟨args, Sum.inr outs⟩, ?_, halen2, hempt, hfm, ?_, ?_⟩
      · have hne2 : ¬(ins.length + ridx.length ≠ params.length) := by omega
        simp only [convertTorchFunc, if_neg hne2, hba, if_neg h1, hmap]
      · intro hc
        exact absurd hc h1
      · intro _
        exact ⟨outs, holen, rfl, hozip⟩



/-- Witness for C8 at a concrete call: three parameters, one output index
(position 2), two supplied inputs — the kernel receives the two inputs
and a fresh tensor and the fresh tensor is returned; with one input too
few the call errors. -/
theorem convert_torch_func_spec_witness :
    (∃ r : CallResult Nat,
        convertTorchFunc [⟨"a", [2]⟩, ⟨"b", [4]⟩, ⟨"c", [8]⟩] [2] [10, 20]
          = Except.ok r
        ∧ r.kernelArgs.length = 3
        ∧ r.kernelArgs.get? 2 = some (TorchVal.empty "c" [8])
        ∧ r.output = Sum.inl (TorchVal.empty "c" [8]))
    ∧ convertTorchFunc [⟨"a", [2]⟩, ⟨"b", [4]⟩, ⟨"c", [8]⟩] [2] [(10 : Nat)]
      = Except.error "ValueError: parameter count mismatch" := by
  constructor
  · obtain ⟨r, hr, hlen, hemp, -, hout, -⟩ :=
      (convert_torch_func_spec [⟨"a", [2]⟩, ⟨"b", [4]⟩, ⟨"c", [8]⟩] [2] [10, 20]).2
        (by decide) (by decide) (by decide)
    obtain ⟨t, hget, hinl⟩ := hout rfl
    have hval : r.kernelArgs.get? 2 = some (TorchVal.empty "c" [8]) := by
      simpa using hemp 2 (by decide) ⟨"c", [8]⟩ rfl
    have hget2 : r.kernelArgs.get? 2 = some t := by
      simpa using hget
    have hlen2 : r.kernelArgs.length = 3 := by
      simpa using hlen
    refine ⟨r, hr, hlen2, hval, ?_⟩
    rw [hinl]
    have hte : some t = some (TorchVal.empty "c" [8]) := by
      rw [← hget2, hval]
    rw [Option.some.inj hte]
  · exact (convert_torch_func_spec [⟨"a", [2]⟩, ⟨"b", [4]⟩, ⟨"c", [8]⟩] [2] [10]).1
      (by decide)

end TileIR
